import Mathlib

/-!
Verification of the Guardium CM processor engine (`CM-Processor/cm_processor.py`).

The Python engine works on loosely typed tabular files.  Every cell value is
passed through `str(...)` before use, so the embedding models a cell as a
`String`, a row as an association list from column name to cell text, and a
dataset as its ordered column list together with its ordered row list.

String primitives mirror the Python operations used by the engine:
`str.lower` (ASCII case folding, the only case the data exercises),
`str.strip` (whitespace trimming), the `in` substring test, and the
code-point lexicographic comparison used by `sorted` and `list.sort`.
All definitions are structurally recursive so that concrete runs reduce
inside the kernel.
-/

/-- ASCII lower-casing of a string, mirroring `str.lower` on the ASCII data
the engine handles. -/
def strLower (s : String) : String :=
  ⟨s.data.map Char.toLower⟩

/-- Whitespace test mirroring the characters removed by Python `str.strip()`. -/
def pySpace (c : Char) : Bool :=
  c == ' ' || c == '\t' || c == '\n' || c == '\r' || c == '\x0b' || c == '\x0c'

/-- Trimming of leading and trailing whitespace, mirroring `str.strip()`. -/
def strTrim (s : String) : String :=
  ⟨((s.data.dropWhile pySpace).reverse.dropWhile pySpace).reverse⟩

/-- Substring search on character lists: `charsContain pat l` holds when `pat`
occurs contiguously inside `l` (an empty pattern always occurs). -/
def charsContain (pat : List Char) : List Char → Bool
  | [] => pat.isPrefixOf []
  | c :: rest => pat.isPrefixOf (c :: rest) || charsContain pat rest

/-- The Python substring test `pat in s`. -/
def strContains (s pat : String) : Bool :=
  charsContain pat.data s.data

/-- Code-point lexicographic strict comparison on character lists, the order
Python uses to compare strings. -/
def charsLt : List Char → List Char → Bool
  | [], [] => false
  | [], _ :: _ => true
  | _ :: _, [] => false
  | a :: as, b :: bs => if a < b then true else if b < a then false else charsLt as bs

/-- Python's strict string comparison `a < b`. -/
def strLt (a b : String) : Bool :=
  charsLt a.data b.data

/-- Python's string comparison `a <= b`, i.e. not `b < a`. -/
def strLe (a b : String) : Bool :=
  !(strLt b a)

theorem charsLt_irrefl (l : List Char) : charsLt l l = false := by
  induction l with
  | nil => rfl
  | cons a as ih => simp [charsLt, ih]

theorem charsLt_trans {a b c : List Char} (hab : charsLt a b = true)
    (hbc : charsLt b c = true) : charsLt a c = true := by
  induction a generalizing b c with
  | nil =>
    cases b with
    | nil => simp [charsLt] at hab
    | cons y ys =>
      cases c with
      | nil => simp [charsLt] at hbc
      | cons z zs => simp [charsLt]
  | cons x xs ih =>
    cases b with
    | nil => simp [charsLt] at hab
    | cons y ys =>
      cases c with
      | nil => simp [charsLt] at hbc
      | cons z zs =>
        simp only [charsLt] at hab hbc ⊢
        rcases lt_trichotomy x y with hxy | hxy | hxy
        · rcases lt_trichotomy y z with hyz | hyz | hyz
          · simp [lt_trans hxy hyz]
          · subst hyz; simp [hxy]
          · -- y > z contradicts hbc
            simp [hyz, not_lt_of_gt hyz] at hbc
        · subst hxy
          simp [lt_irrefl] at hab
          rcases lt_trichotomy x z with hxz | hxz | hxz
          · simp [hxz]
          · subst hxz
            simp only [lt_irrefl, if_false] at hbc ⊢
            exact ih hab hbc
          · simp [hxz, not_lt_of_gt hxz] at hbc
        · simp [hxy, not_lt_of_gt hxy] at hab

theorem charsLt_connex {a b : List Char} (hab : charsLt a b = false)
    (hba : charsLt b a = false) : a = b := by
  induction a generalizing b with
  | nil =>
    cases b with
    | nil => rfl
    | cons y ys => simp [charsLt] at hab
  | cons x xs ih =>
    cases b with
    | nil => simp [charsLt] at hba
    | cons y ys =>
      simp only [charsLt] at hab hba
      rcases lt_trichotomy x y with hxy | hxy | hxy
      · simp [hxy] at hab
      · subst hxy
        simp only [lt_irrefl, if_false] at hab hba
        exact congrArg (x :: ·) (ih hab hba)
      · simp [hxy] at hba

theorem charsLt_asymm {a b : List Char} (h : charsLt a b = true) :
    charsLt b a = false := by
  by_contra hba
  have hba' : charsLt b a = true := by
    cases hcb : charsLt b a with
    | false => exact absurd hcb hba
    | true => rfl
  have := charsLt_trans h hba'
  rw [charsLt_irrefl] at this
  exact Bool.noConfusion this

theorem string_data_inj {a b : String} (h : a.data = b.data) : a = b := by
  cases a
  cases b
  exact congrArg String.mk h

theorem strLe_total (a b : String) : strLe a b = true ∨ strLe b a = true := by
  by_cases h : charsLt b.data a.data = true
  · right
    simpa [strLe, strLt] using charsLt_asymm h
  · left
    simp only [strLe, strLt, Bool.not_eq_true'] at h ⊢
    simpa [Bool.not_eq_true'] using h

theorem strLe_trans {a b c : String} (hab : strLe a b = true)
    (hbc : strLe b c = true) : strLe a c = true := by
  simp only [strLe, strLt, Bool.not_eq_true'] at hab hbc ⊢
  by_contra hca
  have hca' : charsLt c.data a.data = true := by
    cases h : charsLt c.data a.data with
    | false => exact absurd h hca
    | true => rfl
  cases hbc2 : charsLt b.data c.data with
  | true =>
    have hba := charsLt_trans hbc2 hca'
    rw [hba] at hab
    exact Bool.noConfusion hab
  | false =>
    have hcb : c.data = b.data := charsLt_connex hbc hbc2
    rw [hcb] at hca'
    rw [hca'] at hab
    exact Bool.noConfusion hab

theorem strLe_antisymm {a b : String} (hab : strLe a b = true)
    (hba : strLe b a = true) : a = b := by
  simp only [strLe, strLt, Bool.not_eq_true'] at hab hba
  exact string_data_inj (charsLt_connex hba hab)

/-- The ascending string order used to model Python `sorted` on strings. -/
def strLeP (a b : String) : Prop := strLe a b = true

instance : DecidableRel strLeP := fun a b =>
  inferInstanceAs (Decidable (strLe a b = true))

instance : IsTotal String strLeP := ⟨strLe_total⟩

instance : IsTrans String strLeP := ⟨fun _ _ _ => strLe_trans⟩

instance : IsAntisymm String strLeP := ⟨fun _ _ => strLe_antisymm⟩

/-!
Data model: rows and datasets.  A row maps column names to cell text (the
Python code reads `str(row.get(col, ""))`, so a missing cell is the empty
string); a dataset carries the declared column order and the row list, and
`dfEmpty` mirrors the pandas `df.empty` test (no rows or no columns).
-/

/-- A row: association list from column name to cell text. -/
abbrev Row : Type := List (String × String)

/-- Cell access, mirroring `str(row.get(col, ""))`. -/
def getCell (r : Row) (c : String) : String :=
  match List.find? (fun p => p.1 == c) r with
  | some p => p.2
  | none => ""

/-- A tabular dataset: declared column order plus row list. -/
structure Dataset where
  cols : List String
  rows : List Row
deriving DecidableEq

/-- The pandas `df.empty` test used to skip files that read as empty. -/
def dfEmpty (d : Dataset) : Bool :=
  d.rows.isEmpty || d.cols.isEmpty

/-! Keyword configuration tables, from the CONFIGURATION section. -/

def ACTIVE_KEYWORDS : List String :=
  ["active", "up", "running", "connected", "online"]

def INACTIVE_KEYWORDS : List String :=
  ["inactive", "down", "stopped", "disconnected", "offline", "failed", "error"]

def SUCCESS_KEYWORDS : List String :=
  ["success", "done", "completed", "ok"]

/-- Column resolution from `find_column`: first column, in declared order,
whose lower-cased name contains any of the keywords as a substring. -/
def find_column (cols : List String) (keywords : List String) : Option String :=
  List.find? (fun c => keywords.any (fun k => strContains (strLower c) k)) cols

/-!
Collector discovery, from `extract_collectors`.  The Python builds a `set`
and returns `sorted(...)`; the embedding deduplicates the accumulated names
and sorts them ascending.
-/

/-- Row step of `extract_collectors`: lower-cased unit type must contain
"collector" and the trimmed unit name must be non-empty. -/
def collectorRowName (nameCol typeCol : String) (r : Row) : Option String :=
  let unit_type := strLower (getCell r typeCol)
  let unit_name := strTrim (getCell r nameCol)
  if strContains unit_type "collector" && !(unit_name == "") then some unit_name
  else none

/-- Per-file contribution of `extract_collectors`: both the unit-name and
unit-type columns must resolve, else the file contributes nothing. -/
def collectorFileNames (d : Dataset) : List String :=
  if dfEmpty d then []
  else
    match find_column d.cols ["unit name"], find_column d.cols ["unit type"] with
    | some nameCol, some typeCol => d.rows.filterMap (collectorRowName nameCol typeCol)
    | _, _ => []

/-- The function `extract_collectors`: the deduplicated, lexicographically ascending list
of discovered collector names. -/
def extract_collectors (files : List Dataset) : List String :=
  List.insertionSort strLeP (files.flatMap collectorFileNames).dedup

/-!
Status aggregation, from `process_stap_status`.
-/

/-- One classified agent record. -/
structure StapRecord where
  host : String
  status : String
  version : String
  is_active : Bool
deriving DecidableEq

/-- The classification rule: the lower-cased status contains at least one
active keyword.  The inactive keyword table plays no part. -/
def isActiveStatus (status : String) : Bool :=
  ACTIVE_KEYWORDS.any (fun k => strContains (strLower status) k)

/-- Row step of `process_stap_status`: rows with empty trimmed status are
dropped; optional host and version columns fall back to their defaults. -/
def stapRowRecord (statusCol : String) (hostCol verCol : Option String) (r : Row) :
    Option StapRecord :=
  let status := strTrim (getCell r statusCol)
  let host := match hostCol with
    | some c => strTrim (getCell r c)
    | none => "N/A"
  let version := match verCol with
    | some c => strTrim (getCell r c)
    | none => "Undef."
  if !(status == "") then
    some { host := host, status := status, version := version,
           is_active := isActiveStatus status }
  else none

/-- Per-file contribution of `process_stap_status`: the status column is
required, the host and version columns are optional. -/
def stapFileRecords (d : Dataset) : List StapRecord :=
  if dfEmpty d then []
  else
    match find_column d.cols ["status"] with
    | none => []
    | some statusCol =>
      let hostCol := find_column d.cols ["software stap host", "stap host", "host"]
      let verCol := find_column d.cols ["revision", "version", "s-tap revision", "stap revision"]
      d.rows.filterMap (stapRowRecord statusCol hostCol verCol)

/-- Summary counters returned by `process_stap_status`. -/
structure StapSummary where
  active : Nat
  inactive : Nat
  total : Nat
deriving DecidableEq

/-- The function `process_stap_status`: flat record list plus count summary. -/
def process_stap_status (files : List Dataset) : List StapRecord × StapSummary :=
  let records := files.flatMap stapFileRecords
  if records.isEmpty then ([], { active := 0, inactive := 0, total := 0 })
  else
    (records,
      { active := records.countP (fun r => r.is_active),
        inactive := records.countP (fun r => !r.is_active),
        total := records.length })

/-!
Failure aggregation, from `analyze_aggregation_errors`.  The per-collector
file partition is modelled as a function from collector name to the file
list of its subfolder (a missing subfolder is the empty list).
-/

/-- One aggregation failure event. -/
structure FailureEvent where
  collector : String
  activity : String
  status : String
  date : String
deriving DecidableEq

/-- Success detection: the lower-cased status contains a success keyword. -/
def isSuccessStatus (status : String) : Bool :=
  SUCCESS_KEYWORDS.any (fun k => strContains (strLower status) k)

/-- Row step of `analyze_aggregation_errors`: rows with empty trimmed status
or activity are skipped, successful rows are skipped, the rest become
failure events. -/
def failureRowEvent (collector actCol statusCol : String) (dateCol : Option String)
    (r : Row) : Option FailureEvent :=
  let status_val := strTrim (getCell r statusCol)
  let activity_val := strTrim (getCell r actCol)
  let date_val := match dateCol with
    | some c => strTrim (getCell r c)
    | none => "Undef. Date"
  if status_val == "" || activity_val == "" then none
  else if isSuccessStatus status_val then none
  else some { collector := collector, activity := activity_val,
              status := status_val, date := date_val }

/-- Per-file contribution of `analyze_aggregation_errors`: the activity and
status columns are required, the date column is optional. -/
def failureFileEvents (collector : String) (d : Dataset) : List FailureEvent :=
  if dfEmpty d then []
  else
    match find_column d.cols ["activity type", "activity", "process"],
          find_column d.cols ["status", "execution status"] with
    | some actCol, some statusCol =>
      let dateCol := find_column d.cols ["start time", "run time", "timestamp", "date"]
      d.rows.filterMap (failureRowEvent collector actCol statusCol dateCol)
    | _, _ => []

/-- The accumulation pass of `analyze_aggregation_errors`, before sorting. -/
def accumulatedIssues (collectors : List String) (parts : String → List Dataset) :
    List FailureEvent :=
  collectors.flatMap (fun c => (parts c).flatMap (failureFileEvents c))

/-- The composite sort key of the final sort: `(collector, date)`. -/
def issueKey (e : FailureEvent) : String × String :=
  (e.collector, e.date)

/-- Lexicographic comparison of sort keys, as Python compares tuples. -/
def keyLe (x y : String × String) : Bool :=
  strLt x.1 y.1 || (x.1 == y.1 && strLe x.2 y.2)

/-- The descending order of the final sort (`reverse=True`): `a` precedes
`b` when the key of `b` is lexicographically at most the key of `a`. -/
def issueBefore (a b : FailureEvent) : Bool :=
  keyLe (issueKey b) (issueKey a)

/-- The ordering relation on failure events used by the final sort. -/
def issueBeforeP (a b : FailureEvent) : Prop := issueBefore a b = true

instance : DecidableRel issueBeforeP := fun a b =>
  inferInstanceAs (Decidable (issueBefore a b = true))

/-- The function `analyze_aggregation_errors`: the accumulated failure events, sorted by
descending `(collector, date)` key.  The sort keys are always pairs of
strings, so the comparison is total and the stable descending sort is the
unconditional outcome. -/
def analyze_aggregation_errors (collectors : List String)
    (parts : String → List Dataset) : List FailureEvent :=
  List.insertionSort issueBeforeP (accumulatedIssues collectors parts)

/-!
Order facts for the failure-event sort and generic list helpers.
-/

theorem strLt_asymm {a b : String} (h : strLt a b = true) : strLt b a = false :=
  charsLt_asymm h

theorem strLt_connex {a b : String} (hab : strLt a b = false)
    (hba : strLt b a = false) : a = b :=
  string_data_inj (charsLt_connex hab hba)

theorem strLt_trans {a b c : String} (hab : strLt a b = true)
    (hbc : strLt b c = true) : strLt a c = true :=
  charsLt_trans hab hbc

theorem keyLe_total (x y : String × String) : keyLe x y = true ∨ keyLe y x = true := by
  cases h1 : strLt x.1 y.1 with
  | true => left; simp [keyLe, h1]
  | false =>
    cases h2 : strLt y.1 x.1 with
    | true => right; simp [keyLe, h2]
    | false =>
      have e : x.1 = y.1 := strLt_connex h1 h2
      rcases strLe_total x.2 y.2 with h | h
      · left; simp [keyLe, h1, e, h]
      · right; simp [keyLe, h2, e, h]

theorem keyLe_trans {x y z : String × String} (hxy : keyLe x y = true)
    (hyz : keyLe y z = true) : keyLe x z = true := by
  simp only [keyLe, Bool.or_eq_true, Bool.and_eq_true, beq_iff_eq] at hxy hyz ⊢
  rcases hxy with h1 | ⟨e1, l1⟩
  · rcases hyz with h2 | ⟨e2, l2⟩
    · exact Or.inl (strLt_trans h1 h2)
    · exact Or.inl (e2 ▸ h1)
  · rcases hyz with h2 | ⟨e2, l2⟩
    · exact Or.inl (e1 ▸ h2)
    · exact Or.inr ⟨e1.trans e2, strLe_trans l1 l2⟩

instance : IsTotal FailureEvent issueBeforeP := by
  constructor
  intro a b
  rcases keyLe_total (issueKey b) (issueKey a) with h | h
  · exact Or.inl h
  · exact Or.inr h

instance : IsTrans FailureEvent issueBeforeP :=
  ⟨fun _ _ _ hab hbc => keyLe_trans hbc hab⟩

theorem length_filterMap_eq_countP {α β : Type} (f : α → Option β) (l : List α) :
    (l.filterMap f).length = l.countP (fun a => (f a).isSome) := by
  induction l with
  | nil => rfl
  | cons a as ih =>
    cases h : f a <;> simp [List.filterMap_cons, h, List.countP_cons, ih]

theorem find?_eq_some_split {α : Type} {p : α → Bool} {l : List α} {a : α}
    (h : List.find? p l = some a) :
    p a = true ∧ ∃ l1 l2, l = l1 ++ a :: l2 ∧ ∀ b ∈ l1, p b = false := by
  induction l with
  | nil => simp [List.find?] at h
  | cons x xs ih =>
    cases hx : p x with
    | true =>
      rw [List.find?_cons_of_pos _ hx] at h
      obtain rfl : x = a := by injection h
      exact ⟨hx, [], xs, rfl, by intro b hb; simp at hb⟩
    | false =>
      rw [List.find?_cons_of_neg _ (by simp [hx])] at h
      obtain ⟨hpa, l1, l2, heq, hall⟩ := ih h
      refine ⟨hpa, x :: l1, l2, by rw [heq]; rfl, ?_⟩
      intro b hb
      rcases List.mem_cons.mp hb with rfl | hb
      · exact hx
      · exact hall b hb

/-!
Concrete demonstration inputs, taken from the scenario walkthroughs.
-/

/-- Inventory file of the discovery round-trip scenario. -/
def invDemo : Dataset :=
  ⟨["Unit Type", "Unit Name"],
   [[("Unit Type", "Collector"), ("Unit Name", "Collector B")],
    [("Unit Type", "Collector"), ("Unit Name", "Collector A")],
    [("Unit Type", "Aggregator"), ("Unit Name", "X")]]⟩

/-- Status file with one active row, one inactive row and one blank row. -/
def stapDemo : Dataset :=
  ⟨["Status", "Host"],
   [[("Status", "Connected"), ("Host", "h1")],
    [("Status", "Down"), ("Host", "h2")],
    [("Status", "  "), ("Host", "h3")]]⟩

/-- Status file whose rows carry the literal inactive-list statuses. -/
def quirkDemo : Dataset :=
  ⟨["Status"],
   [[("Status", "Inactive")], [("Status", "Disconnected")]]⟩

/-- Aggregation file of collector `A`: one failure and one success. -/
def aggDemoA : Dataset :=
  ⟨["Activity", "Status", "Date"],
   [[("Activity", "Purge"), ("Status", "Failed"), ("Date", "2024-01-01")],
    [("Activity", "Export"), ("Status", "Success"), ("Date", "2024-01-03")]]⟩

/-- Aggregation file of collector `B`: one failure. -/
def aggDemoB : Dataset :=
  ⟨["Activity", "Status", "Date"],
   [[("Activity", "Purge"), ("Status", "Failed"), ("Date", "2024-01-01")]]⟩

/-- Per-collector partition of the two demonstration aggregation files. -/
def aggDemoParts : String → List Dataset := fun c =>
  if c = "A" then [aggDemoA] else if c = "B" then [aggDemoB] else []

/-!
Supporting lemmas about the engine functions.
-/

theorem process_stap_status_fst (files : List Dataset) :
    (process_stap_status files).1 = files.flatMap stapFileRecords := by
  simp only [process_stap_status]
  by_cases h : (files.flatMap stapFileRecords).isEmpty = true
  · simp [h, List.isEmpty_iff.mp h]
  · simp [h]

theorem countP_bool_partition {α : Type} (p : α → Bool) (l : List α) :
    l.countP p + l.countP (fun a => !(p a)) = l.length := by
  induction l with
  | nil => rfl
  | cons a as ih =>
    cases h : p a <;> simp [List.countP_cons, h] <;> omega

theorem stapRowRecord_isSome (statusCol : String) (hostCol verCol : Option String)
    (r : Row) :
    (stapRowRecord statusCol hostCol verCol r).isSome =
      !(strTrim (getCell r statusCol) == "") := by
  simp only [stapRowRecord]
  cases h : !(strTrim (getCell r statusCol) == "") <;> simp [h]

theorem mem_stapFileRecords_spec {rec : StapRecord} {d : Dataset}
    (h : rec ∈ stapFileRecords d) :
    rec.status ≠ "" ∧ rec.is_active = isActiveStatus rec.status := by
  unfold stapFileRecords at h
  split at h
  · simp at h
  · split at h
    · simp at h
    · obtain ⟨r, _, hrow⟩ := List.mem_filterMap.mp h
      simp only [stapRowRecord] at hrow
      split at hrow
      · injection hrow with hrow
        subst hrow
        rename_i hcond
        refine ⟨?_, rfl⟩
        simpa using hcond
      · exact absurd hrow (by simp)

theorem failureRowEvent_isSome (c actCol statusCol : String) (dateCol : Option String)
    (r : Row) :
    (failureRowEvent c actCol statusCol dateCol r).isSome =
      (!(strTrim (getCell r statusCol) == "") && !(strTrim (getCell r actCol) == "") &&
        !(isSuccessStatus (strTrim (getCell r statusCol)))) := by
  simp only [failureRowEvent]
  cases hs : strTrim (getCell r statusCol) == "" <;>
    cases ha : strTrim (getCell r actCol) == "" <;>
      cases hok : isSuccessStatus (strTrim (getCell r statusCol)) <;>
        simp [hs, ha, hok]

theorem mem_failureFileEvents_spec {e : FailureEvent} {c : String} {d : Dataset}
    (h : e ∈ failureFileEvents c d) :
    e.activity ≠ "" ∧ e.status ≠ "" ∧ isSuccessStatus e.status = false := by
  unfold failureFileEvents at h
  split at h
  · simp at h
  · split at h
    · obtain ⟨r, _, hrow⟩ := List.mem_filterMap.mp h
      simp only [failureRowEvent] at hrow
      split at hrow
      · exact absurd hrow (by simp)
      · split at hrow
        · exact absurd hrow (by simp)
        · injection hrow with hrow
          subst hrow
          rename_i hne hok
          simp only [Bool.or_eq_true, not_or] at hne
          refine ⟨by simpa using hne.2, by simpa using hne.1, by simpa using hok⟩
    · simp at h

theorem mem_collectorFileNames_iff {s : String} {d : Dataset} :
    s ∈ collectorFileNames d ↔
      ∃ nameCol typeCol,
        find_column d.cols ["unit name"] = some nameCol ∧
        find_column d.cols ["unit type"] = some typeCol ∧
        ∃ r ∈ d.rows,
          strContains (strLower (getCell r typeCol)) "collector" = true ∧
          strTrim (getCell r nameCol) ≠ "" ∧
          s = strTrim (getCell r nameCol) := by
  constructor
  · intro h
    unfold collectorFileNames at h
    split at h
    · simp at h
    · split at h
      · rename_i nameCol typeCol hname htype
        obtain ⟨r, hr, hrow⟩ := List.mem_filterMap.mp h
        simp only [collectorRowName] at hrow
        split at hrow
        · injection hrow with hrow
          rename_i hcond
          rw [Bool.and_eq_true, Bool.not_eq_true'] at hcond
          exact ⟨nameCol, typeCol, hname, htype, r, hr, hcond.1,
            by simpa using hcond.2, hrow.symm⟩
        · exact absurd hrow (by simp)
      · simp at h
  · rintro ⟨nameCol, typeCol, hname, htype, r, hr, htcoll, hnne, rfl⟩
    have hrows : d.rows ≠ [] := by
      intro he
      rw [he] at hr
      simp at hr
    have hcols : d.cols ≠ [] := by
      intro he
      rw [find_column, he] at hname
      simp at hname
    have hde : dfEmpty d = false := by
      unfold dfEmpty
      simp [List.isEmpty_iff, hrows, hcols]
    unfold collectorFileNames
    rw [hde]
    simp only [Bool.false_eq_true, if_false, hname, htype]
    refine List.mem_filterMap.mpr ⟨r, hr, ?_⟩
    simp [collectorRowName, htcoll, hnne]

theorem mem_extract_collectors {s : String} {files : List Dataset} :
    s ∈ extract_collectors files ↔ ∃ d ∈ files, s ∈ collectorFileNames d := by
  rw [extract_collectors, (List.perm_insertionSort strLeP _).mem_iff,
    List.mem_dedup, List.mem_flatMap]

theorem issueBefore_iff {a b : FailureEvent} :
    issueBeforeP a b ↔
      (strLt b.collector a.collector = true ∨
        (b.collector = a.collector ∧ strLe b.date a.date = true)) := by
  simp [issueBeforeP, issueBefore, keyLe, issueKey]

/-!
Claim theorems.
-/

/-- C3: the failure aggregator output is the accumulated events sorted by
the composite `(collector, date)` key in descending lexicographic order on
both components; in the two-collector scenario with equal date text, the
event of collector `B` precedes the event of collector `A`. -/
theorem failure_events_sorted_desc :
    (∀ (collectors : List String) (parts : String → List Dataset),
      List.Sorted
        (fun a b : FailureEvent =>
          strLt b.collector a.collector = true ∨
            (b.collector = a.collector ∧ strLe b.date a.date = true))
        (analyze_aggregation_errors collectors parts)) ∧
    analyze_aggregation_errors ["A", "B"] aggDemoParts =
      [⟨"B", "Purge", "Failed", "2024-01-01"⟩, ⟨"A", "Purge", "Failed", "2024-01-01"⟩] := by
  constructor
  · intro collectors parts
    have hs := List.sorted_insertionSort issueBeforeP (accumulatedIssues collectors parts)
    exact hs.imp (fun h => issueBefore_iff.mp h)
  · decide

/-- C9: the failure aggregator never loses or invents events: whatever the
inputs, its result is a permutation of the accumulated event sequence (the
sort-key comparison on string pairs is total, so the sorted result is the
unconditional outcome and aggregation never aborts). -/
theorem failure_aggregation_returns_all (collectors : List String)
    (parts : String → List Dataset) :
    (analyze_aggregation_errors collectors parts).Perm
      (accumulatedIssues collectors parts) :=
  List.perm_insertionSort issueBeforeP (accumulatedIssues collectors parts)

/-- C7: collector discovery is order-independent in the input file sequence:
any permutation of the files yields the identical sorted deduplicated list. -/
theorem collectors_input_order_invariant (files1 files2 : List Dataset)
    (h : files1.Perm files2) :
    extract_collectors files1 = extract_collectors files2 := by
  have hraw : (files1.flatMap collectorFileNames).Perm (files2.flatMap collectorFileNames) :=
    h.flatMap_right collectorFileNames
  have hperm : (extract_collectors files1).Perm (extract_collectors files2) :=
    ((List.perm_insertionSort strLeP _).trans hraw.dedup).trans
      (List.perm_insertionSort strLeP _).symm
  exact List.eq_of_perm_of_sorted hperm
    (List.sorted_insertionSort strLeP _) (List.sorted_insertionSort strLeP _)

/-- Witness for C7 at a concrete two-file permutation. -/
theorem collectors_input_order_invariant_witness :
    extract_collectors [invDemo, stapDemo] = extract_collectors [stapDemo, invDemo] :=
  collectors_input_order_invariant [invDemo, stapDemo] [stapDemo, invDemo]
    (List.Perm.swap stapDemo invDemo [])

/-- C6: the status summary is a two-way count partition of the emitted
records by is_active — active plus inactive equals total, with no third
bucket — and an empty emission yields the all-zero summary. -/
theorem stap_summary_partition (files : List Dataset) :
    (process_stap_status files).2.active + (process_stap_status files).2.inactive =
      (process_stap_status files).2.total ∧
    (process_stap_status files).2.active =
      (process_stap_status files).1.countP (fun r => r.is_active) ∧
    (process_stap_status files).2.inactive =
      (process_stap_status files).1.countP (fun r => !r.is_active) ∧
    (process_stap_status files).2.total = (process_stap_status files).1.length ∧
    ((process_stap_status files).1 = [] →
      (process_stap_status files).2 = ⟨0, 0, 0⟩) := by
  have hpart := countP_bool_partition (fun r : StapRecord => r.is_active)
    (files.flatMap stapFileRecords)
  simp only [process_stap_status]
  by_cases h : (files.flatMap stapFileRecords).isEmpty = true
  · simp [h, List.isEmpty_iff.mp h]
  · have h' : (files.flatMap stapFileRecords).isEmpty = false := by
      cases hh : (files.flatMap stapFileRecords).isEmpty
      · rfl
      · exact absurd hh h
    simp only [h', Bool.false_eq_true, if_false]
    refine ⟨hpart, by trivial, by trivial, by trivial, ?_⟩
    intro he
    rw [he] at h'
    simp at h'

/-- Witness for C6: the empty input emits no records and the all-zero
summary. -/
theorem stap_summary_partition_witness :
    (process_stap_status []).2 = ⟨0, 0, 0⟩ :=
  (stap_summary_partition []).2.2.2.2 (by decide)

/-- C5: classification is substring containment of active keywords in the
lower-cased status, so any status containing an active keyword is classified
active; in particular the literal statuses `Inactive` and `Disconnected`,
though listed among the inactive keywords, are classified active because
their lower-casings contain `active` and `connected`. -/
theorem inactive_statuses_classified_active :
    (∀ s : String,
      (∃ k ∈ ACTIVE_KEYWORDS, strContains (strLower s) k = true) →
      isActiveStatus s = true) ∧
    isActiveStatus "Inactive" = true ∧
    isActiveStatus "Disconnected" = true ∧
    "inactive" ∈ INACTIVE_KEYWORDS ∧
    "disconnected" ∈ INACTIVE_KEYWORDS ∧
    strContains (strLower "Inactive") "active" = true ∧
    strContains (strLower "Disconnected") "connected" = true ∧
    (process_stap_status [quirkDemo]).1 =
      [⟨"N/A", "Inactive", "Undef.", true⟩, ⟨"N/A", "Disconnected", "Undef.", true⟩] := by
  refine ⟨?_, by decide, by decide, by decide, by decide, by decide, by decide, by decide⟩
  intro s hs
  rw [isActiveStatus, List.any_eq_true]
  exact hs

/-- Witness for C5 at a status that contains an active keyword. -/
theorem inactive_statuses_classified_active_witness :
    isActiveStatus "Upgraded" = true :=
  inactive_statuses_classified_active.1 "Upgraded" ⟨"up", by decide, by decide⟩

/-- C10: the column resolver returns none exactly when no column's
lower-cased name contains any alias; a hit is a member column containing
some alias, and it is the first such column in declared order (every earlier
column matches no alias). -/
theorem find_column_first_match (cols keywords : List String) :
    (find_column cols keywords = none ↔
      ∀ c ∈ cols, ∀ k ∈ keywords, strContains (strLower c) k = false) ∧
    (∀ c, find_column cols keywords = some c →
      c ∈ cols ∧ (∃ k ∈ keywords, strContains (strLower c) k = true) ∧
      ∃ firstPart rest, cols = firstPart ++ c :: rest ∧
        ∀ b ∈ firstPart, ∀ k ∈ keywords, strContains (strLower b) k = false) := by
  constructor
  · rw [find_column, List.find?_eq_none]
    constructor
    · intro h c hc k hk
      have hc' := h c hc
      rw [List.any_eq_true] at hc'
      cases hck : strContains (strLower c) k with
      | false => rfl
      | true => exact absurd ⟨k, hk, hck⟩ hc'
    · intro h c hc
      rw [List.any_eq_true]
      rintro ⟨k, hk, hck⟩
      rw [h c hc k hk] at hck
      exact Bool.noConfusion hck
  · intro c h
    rw [find_column] at h
    obtain ⟨hpc, firstPart, rest, heq, hall⟩ := find?_eq_some_split h
    refine ⟨List.mem_of_find?_eq_some h, ?_, firstPart, rest, heq, ?_⟩
    · rw [List.any_eq_true] at hpc
      exact hpc
    · intro b hb k hk
      cases hck : strContains (strLower b) k with
      | false => rfl
      | true =>
        have hany : (keywords.any fun k => strContains (strLower b) k) = true :=
          List.any_eq_true.mpr ⟨k, hk, hck⟩
        rw [hall b hb] at hany
        exact Bool.noConfusion hany

/-- Witness for C10: resolving the unit-name column of the demo inventory
header. -/
theorem find_column_first_match_witness :
    "Unit Name" ∈ ["Unit Type", "Unit Name"] ∧
    (∃ k ∈ ["unit name"], strContains (strLower "Unit Name") k = true) ∧
    ∃ firstPart rest, ["Unit Type", "Unit Name"] = firstPart ++ "Unit Name" :: rest ∧
      ∀ b ∈ firstPart, ∀ k ∈ ["unit name"], strContains (strLower b) k = false :=
  (find_column_first_match ["Unit Type", "Unit Name"] ["unit name"]).2 "Unit Name" (by decide)

/-- C4: collector discovery returns a lexicographically ascending,
duplicate-free list whose members are exactly the trimmed unit names of
rows (in files resolving both unit columns) whose lower-cased unit type
contains "collector" and whose trimmed unit name is non-empty; on the
round-trip inventory scenario it returns `["Collector A", "Collector B"]`. -/
theorem collector_discovery_result (files : List Dataset) :
    List.Sorted strLeP (extract_collectors files) ∧
    (extract_collectors files).Nodup ∧
    (∀ s, s ∈ extract_collectors files ↔
      ∃ d ∈ files, ∃ nameCol typeCol,
        find_column d.cols ["unit name"] = some nameCol ∧
        find_column d.cols ["unit type"] = some typeCol ∧
        ∃ r ∈ d.rows,
          strContains (strLower (getCell r typeCol)) "collector" = true ∧
          strTrim (getCell r nameCol) ≠ "" ∧
          s = strTrim (getCell r nameCol)) ∧
    extract_collectors [invDemo] = ["Collector A", "Collector B"] := by
  refine ⟨List.sorted_insertionSort strLeP _, ?_, ?_, by decide⟩
  · exact (List.perm_insertionSort strLeP _).symm.nodup
      (List.nodup_dedup (files.flatMap collectorFileNames))
  · intro s
    rw [mem_extract_collectors]
    exact exists_congr fun d =>
      and_congr_right fun _ => mem_collectorFileNames_iff

/-- C1: the status aggregator emits exactly one record per row with
non-empty trimmed status (such rows are dropped), and each emitted record
is classified active exactly when its lower-cased status contains an active
keyword; a status matching no active keyword is classified inactive no
matter what else it matches, the inactive keyword table never being
consulted. -/
theorem stap_classification (files : List Dataset) :
    (process_stap_status files).1 = files.flatMap stapFileRecords ∧
    (∀ r ∈ (process_stap_status files).1,
      r.status ≠ "" ∧
      (r.is_active = true ↔
        ∃ k ∈ ACTIVE_KEYWORDS, strContains (strLower r.status) k = true) ∧
      ((∀ k ∈ ACTIVE_KEYWORDS, strContains (strLower r.status) k = false) →
        r.is_active = false)) ∧
    (∀ d ∈ files, ∀ statusCol, find_column d.cols ["status"] = some statusCol →
      (stapFileRecords d).length =
        d.rows.countP (fun r => !(strTrim (getCell r statusCol) == ""))) := by
  refine ⟨process_stap_status_fst files, ?_, ?_⟩
  · intro r hr
    rw [process_stap_status_fst] at hr
    obtain ⟨d, _, hrd⟩ := List.mem_flatMap.mp hr
    obtain ⟨hne, hact⟩ := mem_stapFileRecords_spec hrd
    refine ⟨hne, ?_, ?_⟩
    · rw [hact, isActiveStatus, List.any_eq_true]
    · intro hall
      rw [hact, isActiveStatus]
      rw [List.any_eq_false]
      intro k hk
      rw [hall k hk]
      exact Bool.noConfusion
  · intro d _ statusCol hcol
    unfold stapFileRecords
    by_cases hde : dfEmpty d = true
    · have hrows : d.rows = [] := by
        unfold dfEmpty at hde
        rcases Bool.or_eq_true _ _ |>.mp hde with h | h
        · exact List.isEmpty_iff.mp h
        · rw [find_column, List.isEmpty_iff.mp h] at hcol
          simp at hcol
      simp [hde, hrows]
    · have hde' : dfEmpty d = false := by
        cases hh : dfEmpty d
        · rfl
        · exact absurd hh hde
      rw [hde']
      simp only [Bool.false_eq_true, if_false, hcol]
      rw [length_filterMap_eq_countP]
      refine List.countP_congr fun r _ => ?_
      rw [stapRowRecord_isSome]

/-- Witness for C1 on the demo status file. -/
theorem stap_classification_witness :
    ((⟨"h1", "Connected", "Undef.", true⟩ : StapRecord).status ≠ "" ∧
      ((⟨"h1", "Connected", "Undef.", true⟩ : StapRecord).is_active = true ↔
        ∃ k ∈ ACTIVE_KEYWORDS,
          strContains (strLower (⟨"h1", "Connected", "Undef.", true⟩ : StapRecord).status)
            k = true) ∧
      ((∀ k ∈ ACTIVE_KEYWORDS,
          strContains (strLower (⟨"h1", "Connected", "Undef.", true⟩ : StapRecord).status)
            k = false) →
        (⟨"h1", "Connected", "Undef.", true⟩ : StapRecord).is_active = false)) ∧
    (stapFileRecords stapDemo).length =
      stapDemo.rows.countP (fun r => !(strTrim (getCell r "Status") == "")) :=
  ⟨(stap_classification [stapDemo]).2.1 ⟨"h1", "Connected", "Undef.", true⟩ (by decide),
   (stap_classification [stapDemo]).2.2 stapDemo (by decide) "Status" (by decide)⟩

/-- C2: the failure aggregator emits an event for a row exactly when the
trimmed activity and status are both non-empty and the lower-cased status
contains no success keyword; rows failing the test contribute nothing, and
every emitted event has non-empty activity and status matching no success
keyword. -/
theorem failure_event_emission (collectors : List String)
    (parts : String → List Dataset) :
    (∀ e ∈ analyze_aggregation_errors collectors parts,
      e.activity ≠ "" ∧ e.status ≠ "" ∧
      ∀ k ∈ SUCCESS_KEYWORDS, strContains (strLower e.status) k = false) ∧
    (∀ c actCol statusCol dateCol r,
      (failureRowEvent c actCol statusCol dateCol r).isSome = true ↔
        (strTrim (getCell r actCol) ≠ "" ∧ strTrim (getCell r statusCol) ≠ "" ∧
          ∀ k ∈ SUCCESS_KEYWORDS,
            strContains (strLower (strTrim (getCell r statusCol))) k = false)) ∧
    (∀ c d actCol statusCol,
      find_column d.cols ["activity type", "activity", "process"] = some actCol →
      find_column d.cols ["status", "execution status"] = some statusCol →
      (failureFileEvents c d).length =
        d.rows.countP (fun r =>
          !(strTrim (getCell r actCol) == "") &&
          !(strTrim (getCell r statusCol) == "") &&
          !(isSuccessStatus (strTrim (getCell r statusCol))))) := by
  refine ⟨?_, ?_, ?_⟩
  · intro e he
    have he' : e ∈ accumulatedIssues collectors parts :=
      ((List.perm_insertionSort issueBeforeP _).mem_iff).mp he
    obtain ⟨c, _, hcd⟩ := List.mem_flatMap.mp he'
    obtain ⟨d, _, hde⟩ := List.mem_flatMap.mp hcd
    obtain ⟨ha, hs, hok⟩ := mem_failureFileEvents_spec hde
    refine ⟨ha, hs, ?_⟩
    intro k hk
    rw [isSuccessStatus, List.any_eq_false] at hok
    have := hok k hk
    cases hck : strContains (strLower e.status) k with
    | false => rfl
    | true => exact absurd hck this
  · intro c actCol statusCol dateCol r
    rw [failureRowEvent_isSome]
    simp only [Bool.and_eq_true, Bool.not_eq_true', beq_eq_false_iff_ne, ne_eq,
      isSuccessStatus, List.any_eq_false]
    constructor
    · rintro ⟨⟨hs, ha⟩, hok⟩
      exact ⟨ha, hs, fun k hk => by
        cases hck : strContains (strLower (strTrim (getCell r statusCol))) k with
        | false => rfl
        | true => exact absurd hck (hok k hk)⟩
    · rintro ⟨ha, hs, hok⟩
      exact ⟨⟨hs, ha⟩, fun k hk => by rw [hok k hk]; exact Bool.noConfusion⟩
  · intro c d actCol statusCol hact hcol
    unfold failureFileEvents
    by_cases hde : dfEmpty d = true
    · have hrows : d.rows = [] := by
        unfold dfEmpty at hde
        rcases Bool.or_eq_true _ _ |>.mp hde with h | h
        · exact List.isEmpty_iff.mp h
        · rw [find_column, List.isEmpty_iff.mp h] at hcol
          simp at hcol
      simp [hde, hrows]
    · have hde' : dfEmpty d = false := by
        cases hh : dfEmpty d
        · rfl
        · exact absurd hh hde
      rw [hde']
      simp only [Bool.false_eq_true, if_false, hact, hcol]
      rw [length_filterMap_eq_countP]
      refine List.countP_congr fun r _ => ?_
      rw [failureRowEvent_isSome]
      cases hs : strTrim (getCell r statusCol) == "" <;>
        cases ha : strTrim (getCell r actCol) == "" <;>
          simp [hs, ha]

/-- Witness for C2 on the demo aggregation inputs. -/
theorem failure_event_emission_witness :
    ((⟨"A", "Purge", "Failed", "2024-01-01"⟩ : FailureEvent).activity ≠ "" ∧
      (⟨"A", "Purge", "Failed", "2024-01-01"⟩ : FailureEvent).status ≠ "" ∧
      ∀ k ∈ SUCCESS_KEYWORDS,
        strContains (strLower (⟨"A", "Purge", "Failed", "2024-01-01"⟩ : FailureEvent).status)
          k = false) ∧
    (failureFileEvents "A" aggDemoA).length =
      aggDemoA.rows.countP (fun r =>
        !(strTrim (getCell r "Activity") == "") &&
        !(strTrim (getCell r "Status") == "") &&
        !(isSuccessStatus (strTrim (getCell r "Status")))) :=
  ⟨(failure_event_emission ["A", "B"] aggDemoParts).1
      ⟨"A", "Purge", "Failed", "2024-01-01"⟩ (by decide),
   (failure_event_emission ["A", "B"] aggDemoParts).2.2 "A" aggDemoA "Activity" "Status"
      (by decide) (by decide)⟩

/-!
File isolation when a required column is missing (C8).
-/

theorem collectorFileNames_eq_nil_of_missing {d : Dataset}
    (h : find_column d.cols ["unit name"] = none ∨
      find_column d.cols ["unit type"] = none) :
    collectorFileNames d = [] := by
  unfold collectorFileNames
  rcases h with h | h
  · cases ht : find_column d.cols ["unit type"] <;> simp [h, ht]
  · cases hn : find_column d.cols ["unit name"] <;> simp [h, hn]

theorem stapFileRecords_eq_nil_of_missing {d : Dataset}
    (h : find_column d.cols ["status"] = none) :
    stapFileRecords d = [] := by
  unfold stapFileRecords
  simp [h]

theorem failureFileEvents_eq_nil_of_missing {c : String} {d : Dataset}
    (h : find_column d.cols ["activity type", "activity", "process"] = none ∨
      find_column d.cols ["status", "execution status"] = none) :
    failureFileEvents c d = [] := by
  unfold failureFileEvents
  rcases h with h | h
  · cases ht : find_column d.cols ["status", "execution status"] <;> simp [h, ht]
  · cases ha : find_column d.cols ["activity type", "activity", "process"] <;> simp [h, ha]

/-- C8: a file whose required column fails to resolve contributes zero
records to its aggregator, and removing it leaves every aggregation result
unchanged — for discovery, the status aggregator and the failure
aggregator. -/
theorem missing_column_file_isolation :
    (∀ (pre post : List Dataset) (d : Dataset),
      (find_column d.cols ["unit name"] = none ∨
        find_column d.cols ["unit type"] = none) →
      collectorFileNames d = [] ∧
      extract_collectors (pre ++ d :: post) = extract_collectors (pre ++ post)) ∧
    (∀ (pre post : List Dataset) (d : Dataset),
      find_column d.cols ["status"] = none →
      stapFileRecords d = [] ∧
      process_stap_status (pre ++ d :: post) = process_stap_status (pre ++ post)) ∧
    (∀ (collectors : List String) (p p2 : String → List Dataset) (c : String)
        (pre post : List Dataset) (d : Dataset),
      (find_column d.cols ["activity type", "activity", "process"] = none ∨
        find_column d.cols ["status", "execution status"] = none) →
      (∀ c2, c2 ≠ c → p c2 = p2 c2) →
      p c = pre ++ d :: post → p2 c = pre ++ post →
      failureFileEvents c d = [] ∧
      analyze_aggregation_errors collectors p = analyze_aggregation_errors collectors p2) := by
  refine ⟨?_, ?_, ?_⟩
  · intro pre post d h
    have hnil := collectorFileNames_eq_nil_of_missing h
    refine ⟨hnil, ?_⟩
    unfold extract_collectors
    have : (pre ++ d :: post).flatMap collectorFileNames =
        (pre ++ post).flatMap collectorFileNames := by
      simp [List.flatMap_append, List.flatMap_cons, hnil]
    rw [this]
  · intro pre post d h
    have hnil := stapFileRecords_eq_nil_of_missing h
    refine ⟨hnil, ?_⟩
    unfold process_stap_status
    have : (pre ++ d :: post).flatMap stapFileRecords =
        (pre ++ post).flatMap stapFileRecords := by
      simp [List.flatMap_append, List.flatMap_cons, hnil]
    rw [this]
  · intro collectors p p2 c pre post d h hagree hp hp2
    have hnil := failureFileEvents_eq_nil_of_missing (c := c) h
    refine ⟨hnil, ?_⟩
    unfold analyze_aggregation_errors accumulatedIssues
    have : collectors.flatMap (fun x => (p x).flatMap (failureFileEvents x)) =
        collectors.flatMap (fun x => (p2 x).flatMap (failureFileEvents x)) := by
      refine List.flatMap_congr fun x _ => ?_
      by_cases hx : x = c
      · subst hx
        rw [hp, hp2]
        simp [List.flatMap_append, List.flatMap_cons, hnil]
      · rw [hagree x hx]
    rw [this]

/-- Inventory file lacking a unit-name column. -/
def noNameFile : Dataset := ⟨["Unit Type"], [[("Unit Type", "Collector")]]⟩

/-- Status file lacking a status column. -/
def noStatusFile : Dataset := ⟨["Host"], [[("Host", "h9")]]⟩

/-- Aggregation file lacking an activity column. -/
def noActivityFile : Dataset := ⟨["Status"], [[("Status", "Failed")]]⟩

/-- The demo partition with the deficient aggregation file added to
collector `A`. -/
def aggDemoPartsExtra : String → List Dataset := fun c =>
  if c = "A" then [aggDemoA, noActivityFile] else aggDemoParts c

/-- Witness for C8 on concrete deficient files for all three aggregators. -/
theorem missing_column_file_isolation_witness :
    (collectorFileNames noNameFile = [] ∧
      extract_collectors [invDemo, noNameFile] = extract_collectors [invDemo]) ∧
    (stapFileRecords noStatusFile = [] ∧
      process_stap_status [stapDemo, noStatusFile] = process_stap_status [stapDemo]) ∧
    (failureFileEvents "A" noActivityFile = [] ∧
      analyze_aggregation_errors ["A", "B"] aggDemoPartsExtra =
        analyze_aggregation_errors ["A", "B"] aggDemoParts) := by
  refine ⟨?_, ?_, ?_⟩
  · exact missing_column_file_isolation.1 [invDemo] [] noNameFile (Or.inl (by decide))
  · exact missing_column_file_isolation.2.1 [stapDemo] [] noStatusFile (by decide)
  · exact missing_column_file_isolation.2.2 ["A", "B"] aggDemoPartsExtra aggDemoParts "A"
      [aggDemoA] [] noActivityFile (Or.inl (by decide))
      (fun c2 hc2 => if_neg hc2) rfl rfl
